import Mathlib

/-
Verification of the microstructure-lab core: a shallow embedding of
order_book.py, sim/scenario.py, sim/engine.py and analytics/metrics.py.

Modelling conventions, applied uniformly:
* Python floats are modelled as real numbers; the float("inf") and
  float("-inf") sentinels, which have no real counterpart, are modelled
  with Option (none = the infinite sentinel).
* A raised ValueError is modelled as Except.error carrying an Err value
  that names the raised message; exception propagation is the Except bind.
* random.Random(seed) (Python stdlib, not part of the repository) is
  modelled as a seed-determined stream of draws, a function from the draw
  index to the drawn real, consumed one index per call in exactly the
  order the source calls the generator; random.uniform(a, b) is
  a + (b - a) * draw, and random.gauss(0, s) is s * draw.
* Python dicts from price to size are modelled as association lists with
  the dict's insertion-order and overwrite semantics (dictInsert keeps the
  first position of a key and overwrites its value, as Python does).
* round(p, 10) is modelled with Mathlib's round; the tie-breaking rule at
  the 10th decimal differs from Python's banker rounding, and no claim
  below depends on such ties.
* The "buy" / "sell" strings of fills are modelled as the inductive Side,
  so the unreachable unknown-side ValueError of _bounded_fill_size has no
  counterpart; the "bid" side selector string of update_level and the
  "calm" / "stressed" regime labels are kept as strings.
* math.isfinite is identically true on reals, so the finiteness half of
  the quote validation is vacuous in the model.
-/

namespace MicroLab

noncomputable section

/-- A draw stream: the model of one seeded random.Random instance. -/
abbrev Rng : Type := ℕ → ℝ

/-- Side of a trade (the "buy" / "sell" strings of the source). -/
inductive Side where
  | buy
  | sell
deriving DecidableEq

/-- The ValueError messages the embedded code can raise. -/
inductive Err where
  | noBids
  | noAsks
  | negativeQuotePrice
  | negativeQuoteSize
  | askBelowBid
deriving DecidableEq

/-- types.Fill: a realized trade; mid_before / mid_after default to the 0.0
sentinel until set. -/
structure Fill where
  side : Side
  price : ℝ
  size : ℝ
  fee : ℝ
  step : ℕ
  mid_before : ℝ := 0
  mid_after : ℝ := 0
deriving DecidableEq

/-- A throwaway Fill used only as the default of List.getD in statements. -/
def dummyFill : Fill :=
  { side := Side.buy, price := 0, size := 0, fee := 0, step := 0 }

/-- Fill.adverse_selection_cost (types.py). -/
def Fill.adverse_selection_cost (f : Fill) : ℝ :=
  match f.side with
  | .buy => f.mid_after - f.mid_before
  | .sell => f.mid_before - f.mid_after

/-- Fill.realized_spread (types.py). -/
def Fill.realized_spread (f : Fill) : ℝ :=
  match f.side with
  | .buy => f.mid_after - f.price
  | .sell => f.price - f.mid_after

/-- Fill.quoted_spread_half (types.py). -/
def Fill.quoted_spread_half (f : Fill) : ℝ :=
  match f.side with
  | .buy => f.mid_before - f.price
  | .sell => f.price - f.mid_before

/-- types.MarketState: the derived per-step snapshot handed to strategies. -/
structure MarketState where
  step : ℕ
  mid : ℝ
  best_bid : ℝ
  best_ask : ℝ
  spread : ℝ
  imbalance : ℝ
  volatility : ℝ
  regime : String := "calm"

/-- types.QuoteIntent: a strategy's desired two-sided quote. -/
structure QuoteIntent where
  bid_px : ℝ
  bid_sz : ℝ
  ask_px : ℝ
  ask_sz : ℝ

/-! ## Order book (order_book.py)

Bids and asks are price-to-size dicts, modelled as association lists. -/

structure OrderBook where
  tick_size : ℝ
  bids : List (ℝ × ℝ) := []
  asks : List (ℝ × ℝ) := []

/-- The model of the Python round(p, 10) applied to every stored price key. -/
def roundKey (p : ℝ) : ℝ := ((round (p * 10 ^ 10) : ℤ) : ℝ) / 10 ^ 10

/-- Dict assignment book[key] = val: overwrite in place if the key exists
(keys keep their first-insertion position in a Python dict), else append. -/
def dictInsert (book : List (ℝ × ℝ)) (key val : ℝ) : List (ℝ × ℝ) :=
  if book.any (fun e => decide (e.1 = key)) then
    book.map (fun e => if e.1 = key then (key, val) else e)
  else
    book ++ [(key, val)]

/-- A dict built from a list of entries in order (dict-comprehension
semantics: a later duplicate key overwrites the earlier value). -/
def dictOf (entries : List (ℝ × ℝ)) : List (ℝ × ℝ) :=
  entries.foldl (fun acc e => dictInsert acc e.1 e.2) []

/-- Dict read with default, book.get(key, dflt). -/
def dictGetD (book : List (ℝ × ℝ)) (key : ℝ) (dflt : ℝ) : ℝ :=
  match book.find? (fun e => decide (e.1 = key)) with
  | some e => e.2
  | none => dflt

/-- Dict removal book.pop(key, None). -/
def dictPop (book : List (ℝ × ℝ)) (key : ℝ) : List (ℝ × ℝ) :=
  book.filter (fun e => decide (¬ e.1 = key))

/-- OrderBook.set_top: replace the entire book with a single top-of-book
level each side; sizes are clamped below at 0 with max(0.0, size). -/
def OrderBook.set_top (b : OrderBook) (best_bid bid_size best_ask ask_size : ℝ) : OrderBook :=
  { b with
    bids := [(roundKey best_bid, max 0 bid_size)],
    asks := [(roundKey best_ask, max 0 ask_size)] }

/-- OrderBook.update_level: size ≤ 0 removes the level, size > 0 upserts. -/
def OrderBook.update_level (b : OrderBook) (side : String) (price size : ℝ) : OrderBook :=
  if side = "bid" then
    { b with bids := if size ≤ 0 then dictPop b.bids (roundKey price)
                     else dictInsert b.bids (roundKey price) size }
  else
    { b with asks := if size ≤ 0 then dictPop b.asks (roundKey price)
                     else dictInsert b.asks (roundKey price) size }

/-- OrderBook.set_depth: replace the full book with multi-level snapshots;
only pairs with size > 0 enter the dict comprehension. -/
def OrderBook.set_depth (b : OrderBook) (bid_levels ask_levels : List (ℝ × ℝ)) : OrderBook :=
  { b with
    bids := dictOf ((bid_levels.filter (fun e => decide (0 < e.2))).map
      (fun e => (roundKey e.1, max 0 e.2))),
    asks := dictOf ((ask_levels.filter (fun e => decide (0 < e.2))).map
      (fun e => (roundKey e.1, max 0 e.2))) }

/-- OrderBook.best_bid: the max over the bid keys, or the empty-book
ValueError when no bids exist (Python max over a dict iterates the keys). -/
def OrderBook.best_bid (b : OrderBook) : Except Err ℝ :=
  match b.bids.map Prod.fst with
  | [] => .error .noBids
  | k :: ks => .ok (ks.foldl max k)

/-- OrderBook.best_ask: the min over the ask keys, or the empty-book error. -/
def OrderBook.best_ask (b : OrderBook) : Except Err ℝ :=
  match b.asks.map Prod.fst with
  | [] => .error .noAsks
  | k :: ks => .ok (ks.foldl min k)

/-- OrderBook.spread = best_ask() - best_bid() (ask evaluated first). -/
def OrderBook.spread (b : OrderBook) : Except Err ℝ := do
  let ask ← b.best_ask
  let bid ← b.best_bid
  pure (ask - bid)

/-- OrderBook.mid = 0.5 * (best_bid() + best_ask()). -/
def OrderBook.mid (b : OrderBook) : Except Err ℝ := do
  let bid ← b.best_bid
  let ask ← b.best_ask
  pure (0.5 * (bid + ask))

/-- OrderBook.imbalance: signed top-of-book size skew; 0 when the two
top-of-book sizes sum to ≤ 0.  Calls best_bid()/best_ask(), so it raises
their empty-book error when a side has no levels. -/
def OrderBook.imbalance (b : OrderBook) : Except Err ℝ := do
  let bb ← b.best_bid
  let ba ← b.best_ask
  let bid_sz := dictGetD b.bids bb 0
  let ask_sz := dictGetD b.asks ba 0
  let total := bid_sz + ask_sz
  if total ≤ 0 then pure 0 else pure ((bid_sz - ask_sz) / total)

/-! ## Metrics (analytics/metrics.py) -/

/-- statistics.mean over a list of reals (the callers guard nonemptiness;
on [] this model yields 0/0 = 0, a value the source never reads). -/
def listMean (l : List ℝ) : ℝ := l.sum / l.length

/-- statistics.pstdev: population standard deviation. -/
def pstdev (l : List ℝ) : ℝ :=
  Real.sqrt ((l.map fun x => (x - listMean l) ^ 2).sum / l.length)

/-- The per-step PnL differences rets, pnl[i] - pnl[i-1] for i = 1... -/
def retsOf (pnl : List ℝ) : List ℝ :=
  List.zipWith (fun a b => a - b) (pnl.drop 1) pnl

/-- The running-peak drawdown loop of summarize; the float("-inf") initial
peak is modelled as Option.none, with the same per-element updates. -/
def maxDrawdown (pnl : List ℝ) : ℝ :=
  (pnl.foldl
    (fun acc x =>
      let peak := match acc.1 with
        | none => x
        | some p => max p x
      (some peak, min acc.2 (x - peak)))
    ((none : Option ℝ), 0)).2

/-- _inventory_half_life; the float("inf") return is modelled as none. -/
def invHalfLife (inventory : List ℝ) : Option ℝ :=
  if inventory = [] then some 0
  else
    let abs_inv := inventory.map (fun x => |x|)
    let peak_val := (abs_inv.foldl max 0)
    if peak_val < 1e-9 then some 0
    else
      let peak_idx := abs_inv.findIdx (fun x => decide (x = peak_val))
      match (List.range' peak_idx (abs_inv.length - peak_idx)).find?
          (fun i => decide (abs_inv.getD i 0 ≤ peak_val / 2)) with
      | some i => some ((i - peak_idx : ℕ) : ℝ)
      | none => none

/-- The summary dict of summarize, one field per metric key. -/
structure Summary where
  final_pnl : ℝ
  max_drawdown : ℝ
  sharpe_annualized : ℝ
  fills : ℝ
  fees_paid : ℝ
  avg_abs_inventory : ℝ
  inventory_half_life : Option ℝ
  fill_rate : ℝ
  realized_spread_avg : ℝ
  adverse_selection_avg : ℝ

/-- summarize (analytics/metrics.py).  The engine always passes the raw
fill list, so the legacy integer branch of the fills union type is not
modelled. -/
def summarize (path : List ℝ) (inventory : List ℝ) (fills : List Fill)
    (fees_paid : ℝ) (periods_per_year : ℝ) : Summary :=
  let pnl := path
  let rets := retsOf pnl
  let mean_ret := if rets ≠ [] then listMean rets else 0
  let std_ret := if 1 < rets.length then pstdev rets else 0
  let annualization := if 0 < periods_per_year then Real.sqrt periods_per_year else 0
  let sharpe := if 0 < std_ret then mean_ret / std_ret * annualization else 0
  let max_dd := maxDrawdown pnl
  let avg_abs_inv := if inventory ≠ [] then listMean (inventory.map fun x => |x|) else 0
  let inv_half_life := invHalfLife inventory
  let passive_fills := fills.filter (fun f => decide (¬ f.mid_before = 0))
  let fill_count := if fills ≠ [] then fills.length else 0
  let realized_spread_avg :=
    if fills ≠ [] ∧ passive_fills ≠ [] then listMean (passive_fills.map Fill.realized_spread)
    else 0
  let adverse_selection_avg :=
    if fills ≠ [] ∧ passive_fills ≠ [] then listMean (passive_fills.map Fill.adverse_selection_cost)
    else 0
  let fill_rate := if fills ≠ [] ∧ 0 < pnl.length then (fill_count : ℝ) / pnl.length else 0
  { final_pnl := pnl.getLastD 0,
    max_drawdown := max_dd,
    sharpe_annualized := sharpe,
    fills := (fill_count : ℝ),
    fees_paid := fees_paid,
    avg_abs_inventory := avg_abs_inv,
    inventory_half_life := inv_half_life,
    fill_rate := fill_rate,
    realized_spread_avg := realized_spread_avg,
    adverse_selection_avg := adverse_selection_avg }

/-! ## Scenario generator (sim/scenario.py) -/

/-- SyntheticScenario's configuration fields, defaults as in the source. -/
structure SyntheticScenario where
  seed : ℤ
  start_mid : ℝ
  tick_size : ℝ
  steps : ℕ
  sigma_bps : ℝ
  stressed_sigma_bps : ℝ := 0
  calm_to_stressed_prob : ℝ := 0.02
  stressed_to_calm_prob : ℝ := 0.10
  drift_bps : ℝ := 0
  spread_ticks : ℕ := 2
  spread_vol_sensitivity : ℝ := 2
  depth_min : ℝ := 1
  depth_max : ℝ := 8
  depth_levels : ℕ := 1

/-- The depth payload of one scenario tick: top-of-book sizes when
depth_levels ≤ 1, else the two (price, size) level lists. -/
inductive EventDepth where
  | top (bid_size ask_size : ℝ)
  | levels (bid_levels ask_levels : List (ℝ × ℝ))

/-- One emitted scenario tick (the event dict of scenario.py). -/
structure MarketEvent where
  step : ℕ
  mid : ℝ
  best_bid : ℝ
  best_ask : ℝ
  depth : EventDepth
  volatility : ℝ := 0
  regime : String := "calm"

/-- The loop state of SyntheticScenario.stream: next step index, current
regime, current mid and the next unconsumed rng draw index. -/
structure ScenState where
  stepIdx : ℕ
  regime : String
  mid : ℝ
  ctr : ℕ

/-- random.uniform(a, b) = a + (b - a) * random(). -/
def uniformDraw (a b u : ℝ) : ℝ := a + (b - a) * u

/-- SyntheticScenario._build_depth: n levels per side, level i priced i
ticks beyond the touch, sized by one fresh uniform base draw per level
times 1.5^i (the same base size serves the bid and the ask of level i,
as in the source). -/
def build_depth (sc : SyntheticScenario) (rng : Rng) (c : ℕ) (best_bid best_ask : ℝ)
    (n : ℕ) : List (ℝ × ℝ) × List (ℝ × ℝ) :=
  ((List.range n).map fun (i : ℕ) =>
      (best_bid - (i : ℝ) * sc.tick_size,
       uniformDraw sc.depth_min sc.depth_max (rng (c + i)) * (1.5 : ℝ) ^ i),
   (List.range n).map fun (i : ℕ) =>
      (best_ask + (i : ℝ) * sc.tick_size,
       uniformDraw sc.depth_min sc.depth_max (rng (c + i)) * (1.5 : ℝ) ^ i))

/-- One iteration of the stream() loop: regime transition draw, gauss price
shock draw, vol-widened spread, then depth draws (two for the single-level
branch, depth_levels many for the multi-level branch). -/
def scenario_step (sc : SyntheticScenario) (rng : Rng) (st : ScenState) :
    MarketEvent × ScenState :=
  let stressed_sigma := if 0 < sc.stressed_sigma_bps then sc.stressed_sigma_bps
                        else sc.sigma_bps * 2
  let regime2 :=
    if st.regime = "calm" then
      (if rng st.ctr < sc.calm_to_stressed_prob then "stressed" else "calm")
    else
      (if rng st.ctr < sc.stressed_to_calm_prob then "calm" else "stressed")
  let current_sigma := if regime2 = "calm" then sc.sigma_bps else stressed_sigma
  let drift := sc.drift_bps / 10000
  let shock := (current_sigma / 10000) * rng (st.ctr + 1)
  let mid2 := max sc.tick_size (st.mid * (1 + drift + shock))
  let shock_magnitude := |shock| * 10000
  let dynamic_spread_ticks :=
    max (sc.spread_ticks : ℝ) ((sc.spread_ticks : ℝ) + sc.spread_vol_sensitivity * shock_magnitude)
  let half_spread := (dynamic_spread_ticks / 2) * sc.tick_size
  let best_bid := mid2 - half_spread
  let best_ask := mid2 + half_spread
  if sc.depth_levels ≤ 1 then
    let bid_size := uniformDraw sc.depth_min sc.depth_max (rng (st.ctr + 2))
    let ask_size := uniformDraw sc.depth_min sc.depth_max (rng (st.ctr + 3))
    ({ step := st.stepIdx, mid := mid2, best_bid := best_bid, best_ask := best_ask,
       depth := .top bid_size ask_size, volatility := current_sigma / 10000 * mid2,
       regime := regime2 },
     { stepIdx := st.stepIdx + 1, regime := regime2, mid := mid2, ctr := st.ctr + 4 })
  else
    let lv := build_depth sc rng (st.ctr + 2) best_bid best_ask sc.depth_levels
    ({ step := st.stepIdx, mid := mid2, best_bid := best_bid, best_ask := best_ask,
       depth := .levels lv.1 lv.2, volatility := current_sigma / 10000 * mid2,
       regime := regime2 },
     { stepIdx := st.stepIdx + 1, regime := regime2, mid := mid2,
       ctr := st.ctr + 2 + sc.depth_levels })

/-- The stream() loop, n remaining iterations from state st. -/
def streamAux (sc : SyntheticScenario) (rng : Rng) : ℕ → ScenState → List MarketEvent
  | 0, _ => []
  | n + 1, st =>
    let p := scenario_step sc rng st
    p.1 :: streamAux sc rng n p.2

/-- SyntheticScenario.stream, materialized (the engine consumes it with
list(scenario_stream)); rng models random.Random(sc.seed). -/
def SyntheticScenario.stream (sc : SyntheticScenario) (rng : Rng) : List MarketEvent :=
  streamAux sc rng sc.steps { stepIdx := 0, regime := "calm", mid := sc.start_mid, ctr := 0 }

/-! ## Fill / execution engine (sim/engine.py) -/

/-- SimulationConfig, defaults as in the source. -/
structure SimulationConfig where
  tick_size : ℝ := 0.5
  maker_fee_bps : ℝ := -0.5
  taker_fee_bps : ℝ := 2
  aggressive_cross_prob : ℝ := 0.03
  passive_fill_prob_base : ℝ := 0.08
  max_inventory : ℝ := 10
  periods_per_year : ℝ := 365 * 24 * 60
  random_seed : ℤ := 42
  adverse_selection_horizon : ℕ := 5

/-- SimulationResult. -/
structure SimulationResult where
  pnl_path : List ℝ
  inventory_path : List ℝ
  mid_path : List ℝ
  spread_path : List ℝ
  fills : List Fill
  summary : Summary

/-- A strategy: on_tick(state, inventory) returning a QuoteIntent, with its
private history of type σ threaded explicitly. -/
def Strategy (σ : Type) : Type := σ → MarketState → ℝ → QuoteIntent × σ

/-- The Simulator: its config and the rng stream built from
cfg.random_seed in __init__. -/
structure Simulator where
  cfg : SimulationConfig
  rng : Rng

/-- Simulator._validate_quote.  The isfinite check of the source is
identically true over ℝ; the three ValueError branches follow in order. -/
def validate_quote (q : QuoteIntent) : Except Err Unit :=
  if q.bid_px < 0 ∨ q.ask_px < 0 then .error .negativeQuotePrice
  else if q.bid_sz < 0 ∨ q.ask_sz < 0 then .error .negativeQuoteSize
  else if q.ask_px < q.bid_px then .error .askBelowBid
  else .ok ()

/-- Simulator._bounded_fill_size (the unknown-side ValueError is
unrepresentable with the inductive Side). -/
def bounded_fill_size (cfg : SimulationConfig) (side : Side) (size inventory : ℝ) : ℝ :=
  if size ≤ 0 then 0
  else
    match side with
    | .buy => max 0 (min size (cfg.max_inventory - inventory))
    | .sell => max 0 (min size (inventory + cfg.max_inventory))

/-- cross_prob of _simulate_fills: the volatility-scaled aggressive
crossing probability, capped at 1. -/
def cross_prob (cfg : SimulationConfig) (state : MarketState) : ℝ :=
  let vol_scale := 1 + max 0 (state.volatility / max state.spread (1e-9))
  min 1 (cfg.aggressive_cross_prob * vol_scale)

/-- dist_bid_ticks of _simulate_fills. -/
def dist_bid_ticks (cfg : SimulationConfig) (state : MarketState) (quote : QuoteIntent) : ℝ :=
  max 0 ((state.best_bid - quote.bid_px) / max cfg.tick_size (1e-9))

/-- dist_ask_ticks of _simulate_fills. -/
def dist_ask_ticks (cfg : SimulationConfig) (state : MarketState) (quote : QuoteIntent) : ℝ :=
  max 0 ((quote.ask_px - state.best_ask) / max cfg.tick_size (1e-9))

/-- p_hit_bid of _simulate_fills: base * (1 - 0.5 * imbalance) *
exp(-dist_bid_ticks), clamped into [0, 1]. -/
def p_hit_bid (cfg : SimulationConfig) (state : MarketState) (quote : QuoteIntent) : ℝ :=
  max 0 (min 1 (cfg.passive_fill_prob_base * (1 - 0.5 * state.imbalance) *
    Real.exp (-(dist_bid_ticks cfg state quote))))

/-- p_hit_ask of _simulate_fills: base * (1 + 0.5 * imbalance) *
exp(-dist_ask_ticks), clamped into [0, 1]. -/
def p_hit_ask (cfg : SimulationConfig) (state : MarketState) (quote : QuoteIntent) : ℝ :=
  max 0 (min 1 (cfg.passive_fill_prob_base * (1 + 0.5 * state.imbalance) *
    Real.exp (-(dist_ask_ticks cfg state quote))))

/-- The aggressive-buy branch: a quoted bid at or above the best ask draws
once; on success a taker buy of size min(bid_sz, 1) at the best ask. -/
def agg_buy_fill (cfg : SimulationConfig) (state : MarketState) (quote : QuoteIntent)
    (rng : Rng) (c : ℕ) : List Fill × ℕ :=
  if quote.bid_px ≥ state.best_ask then
    if rng c < cross_prob cfg state then
      let size := min quote.bid_sz 1
      ([{ side := .buy, price := state.best_ask, size := size,
          fee := state.best_ask * size * (cfg.taker_fee_bps / 10000),
          step := state.step }], c + 1)
    else ([], c + 1)
  else ([], c)

/-- The aggressive-sell branch, symmetric against the best bid. -/
def agg_sell_fill (cfg : SimulationConfig) (state : MarketState) (quote : QuoteIntent)
    (rng : Rng) (c : ℕ) : List Fill × ℕ :=
  if quote.ask_px ≤ state.best_bid then
    if rng c < cross_prob cfg state then
      let size := min quote.ask_sz 1
      ([{ side := .sell, price := state.best_bid, size := size,
          fee := state.best_bid * size * (cfg.taker_fee_bps / 10000),
          step := state.step }], c + 1)
    else ([], c + 1)
  else ([], c)

/-- The passive-buy branch: a non-crossing bid draws once against
p_hit_bid; on a hit a second draw sets the partial size
bid_sz * uniform(0.2, 1.0) and the fill prices at the quote. -/
def pas_buy_fill (cfg : SimulationConfig) (state : MarketState) (quote : QuoteIntent)
    (rng : Rng) (c : ℕ) : List Fill × ℕ :=
  if quote.bid_px < state.best_ask then
    if rng c < p_hit_bid cfg state quote then
      let size := quote.bid_sz * uniformDraw 0.2 1 (rng (c + 1))
      ([{ side := .buy, price := quote.bid_px, size := size,
          fee := quote.bid_px * size * (cfg.maker_fee_bps / 10000),
          step := state.step }], c + 2)
    else ([], c + 1)
  else ([], c)

/-- The passive-sell branch, symmetric against p_hit_ask. -/
def pas_sell_fill (cfg : SimulationConfig) (state : MarketState) (quote : QuoteIntent)
    (rng : Rng) (c : ℕ) : List Fill × ℕ :=
  if quote.ask_px > state.best_bid then
    if rng c < p_hit_ask cfg state quote then
      let size := quote.ask_sz * uniformDraw 0.2 1 (rng (c + 1))
      ([{ side := .sell, price := quote.ask_px, size := size,
          fee := quote.ask_px * size * (cfg.maker_fee_bps / 10000),
          step := state.step }], c + 2)
    else ([], c + 1)
  else ([], c)

/-- Simulator._simulate_fills: the four candidate-fill branches in the
source's order, threading the rng draw counter. -/
def simulate_fills (cfg : SimulationConfig) (state : MarketState) (quote : QuoteIntent)
    (rng : Rng) (c0 : ℕ) : List Fill × ℕ :=
  let a := agg_buy_fill cfg state quote rng c0
  let b := agg_sell_fill cfg state quote rng a.2
  let p := pas_buy_fill cfg state quote rng b.2
  let q := pas_sell_fill cfg state quote rng p.2
  (a.1 ++ b.1 ++ p.1 ++ q.1, q.2)

/-- The mutable state of one Simulator.run invocation. -/
structure RunState where
  book : OrderBook
  cash : ℝ := 0
  inv : ℝ := 0
  fees_paid : ℝ := 0
  pnl_path : List ℝ := []
  inv_path : List ℝ := []
  mid_path : List ℝ := []
  spread_path : List ℝ := []
  fills : List Fill := []
  ctr : ℕ := 0

/-- The body of the per-fill loop in Simulator.run: clip the candidate to
the inventory bound, drop it when clipped to ≤ 0, rescale the fee by the
clipped-to-original size ratio, then update inventory, cash and fees and
record the bounded fill. -/
def apply_fill (cfg : SimulationConfig) (state : MarketState) (s : RunState)
    (fill : Fill) : RunState :=
  let size := bounded_fill_size cfg fill.side fill.size s.inv
  if size ≤ 0 then s
  else
    let fee := if 0 < fill.size then fill.fee * (size / fill.size) else 0
    let bounded : Fill :=
      { side := fill.side, price := fill.price, size := size, fee := fee,
        step := fill.step, mid_before := state.mid }
    let s1 :=
      if bounded.side = Side.buy then
        { s with inv := s.inv + bounded.size,
                 cash := s.cash - bounded.price * bounded.size }
      else
        { s with inv := s.inv - bounded.size,
                 cash := s.cash + bounded.price * bounded.size }
    { s1 with cash := s1.cash - bounded.fee,
              fees_paid := s1.fees_paid + bounded.fee,
              fills := s1.fills ++ [bounded] }

/-- The per-step MarketState built fresh from the order book plus event
metadata. -/
def buildState (book : OrderBook) (event : MarketEvent) : Except Err MarketState := do
  let mid ← book.mid
  let bb ← book.best_bid
  let ba ← book.best_ask
  let sp ← book.spread
  let imb ← book.imbalance
  pure { step := event.step, mid := mid, best_bid := bb, best_ask := ba,
         spread := sp, imbalance := imb, volatility := event.volatility,
         regime := event.regime }

/-- The per-step book installation of Simulator.run: multi-level depth via
set_depth when the event carries level lists, else single top-of-book. -/
def bookOf (b : OrderBook) (event : MarketEvent) : OrderBook :=
  match event.depth with
  | .levels bl al => b.set_depth bl al
  | .top bs as => b.set_top event.best_bid bs event.best_ask as

/-- The fill loop of one step: simulate the candidate fills from the
current draw counter, then fold the inventory-clipped application over
them (the book and the advanced counter are installed first). -/
def stepFillsState (cfg : SimulationConfig) (rng : Rng) (state : MarketState)
    (quote : QuoteIntent) (s : RunState) (book : OrderBook) : RunState :=
  let sf := simulate_fills cfg state quote rng s.ctr
  let s1 : RunState := { s with book := book, ctr := sf.2 }
  sf.1.foldl (apply_fill cfg state) s1

/-- The bookkeeping tail of one step: append the mark-to-mid PnL
(cash + inventory * mid) and the inventory / mid / spread snapshots. -/
def appendSeries (state : MarketState) (s : RunState) : RunState :=
  { s with
    pnl_path := s.pnl_path ++ [s.cash + s.inv * state.mid],
    inv_path := s.inv_path ++ [s.inv],
    mid_path := s.mid_path ++ [state.mid],
    spread_path := s.spread_path ++ [state.spread] }

/-- One iteration of the main loop of Simulator.run: install the event's
book, build the state, quote, validate, simulate and apply fills, then
append the series snapshots. -/
def runStep {σ : Type} (cfg : SimulationConfig) (rng : Rng) (strat : Strategy σ)
    (acc : RunState × σ) (event : MarketEvent) : Except Err (RunState × σ) :=
  let s := acc.1
  let book := bookOf s.book event
  match buildState book event with
  | .error e => .error e
  | .ok state =>
    let pair := strat acc.2 state s.inv
    match validate_quote pair.1 with
    | .error e => .error e
    | .ok _ =>
      .ok (appendSeries state (stepFillsState cfg rng state pair.1 s book), pair.2)

/-- The initial run state: empty book with the config's tick size, zero
cash, zero inventory, empty series, draw counter 0. -/
def initState (cfg : SimulationConfig) : RunState :=
  { book := { tick_size := cfg.tick_size } }

/-- The forward simulation loop of Simulator.run, up to but excluding the
adverse-selection pass. -/
def run_core {σ : Type} (cfg : SimulationConfig) (rng : Rng) (events : List MarketEvent)
    (strat : Strategy σ) (s0 : σ) : Except Err RunState :=
  (events.foldlM (runStep cfg rng strat) (initState cfg, s0)).map Prod.fst

/-- The post-hoc adverse-selection pass: when the horizon is positive and
the mid series nonempty, set every fill's mid_after to the mid at
min(step + horizon, last index). -/
def annotate_fills (horizon : ℕ) (mid_path : List ℝ) (fills : List Fill) : List Fill :=
  if 0 < horizon ∧ mid_path ≠ [] then
    fills.map fun f =>
      { f with mid_after := mid_path.getD (min (f.step + horizon) (mid_path.length - 1)) 0 }
  else fills

/-- Package a finished run state: annotate the fills, freeze the four
series and compute the summary. -/
def mkResult (cfg : SimulationConfig) (s : RunState) : SimulationResult :=
  let fills := annotate_fills cfg.adverse_selection_horizon s.mid_path s.fills
  { pnl_path := s.pnl_path, inventory_path := s.inv_path, mid_path := s.mid_path,
    spread_path := s.spread_path, fills := fills,
    summary := summarize s.pnl_path s.inv_path fills s.fees_paid cfg.periods_per_year }

/-- Simulator.run over a materialized event stream. -/
def Simulator.run {σ : Type} (sim : Simulator) (events : List MarketEvent)
    (strat : Strategy σ) (s0 : σ) : Except Err SimulationResult :=
  (run_core sim.cfg sim.rng events strat s0).map (mkResult sim.cfg)

/-- The inventory series of a finished run; an aborted run discards its
partial state, leaving no series. -/
def resInvPath (r : Except Err SimulationResult) : List ℝ :=
  match r with
  | .ok res => res.inventory_path
  | .error _ => []

/-- The recorded fills of a finished run. -/
def resFills (r : Except Err SimulationResult) : List Fill :=
  match r with
  | .ok res => res.fills
  | .error _ => []

/-! ## Concrete instances used by witnesses and counterexamples -/

/-- The all-zeros draw stream. -/
def zeroRng : Rng := fun _ => 0

/-- A concrete market state at mid 100 with a one-tick spread. -/
def exState : MarketState :=
  { step := 0, mid := 100, best_bid := 99.5, best_ask := 100.5, spread := 1,
    imbalance := 0, volatility := 0, regime := "calm" }

/-- A concrete quote resting exactly at the touch on both sides. -/
def exQuote : QuoteIntent :=
  { bid_px := 99.5, bid_sz := 1, ask_px := 100.5, ask_sz := 1 }

/-- A concrete strategy that always quotes zeros and keeps no history. -/
def exStrat : Strategy Unit := fun s _ _ => ({ bid_px := 0, bid_sz := 0, ask_px := 0, ask_sz := 0 }, s)

/-- A concrete two-depth-level scenario configuration. -/
def exScenario2 : SyntheticScenario :=
  { seed := 1, start_mid := 100, tick_size := 0.5, steps := 1, sigma_bps := 3,
    depth_levels := 2 }

/-! ## Helper lemmas -/

theorem foldl_max_mem (x : ℝ) (l : List ℝ) : l.foldl max x = x ∨ l.foldl max x ∈ l := by
  induction l generalizing x with
  | nil => left; rfl
  | cons a t ih =>
    rcases ih (max x a) with h | h
    · rcases max_choice x a with hm | hm
      · left; rw [List.foldl_cons, h, hm]
      · right; rw [List.foldl_cons, h, hm]; exact List.mem_cons_self a t
    · right; exact List.mem_cons_of_mem a h

theorem le_foldl_max (x : ℝ) (l : List ℝ) :
    x ≤ l.foldl max x ∧ ∀ y ∈ l, y ≤ l.foldl max x := by
  induction l generalizing x with
  | nil => exact ⟨le_refl x, by simp⟩
  | cons a t ih =>
    obtain ⟨h1, h2⟩ := ih (max x a)
    refine ⟨le_trans (le_max_left x a) h1, ?_⟩
    intro y hy
    rcases List.mem_cons.mp hy with rfl | hy
    · exact le_trans (le_max_right x y) h1
    · exact h2 y hy

theorem foldl_min_mem (x : ℝ) (l : List ℝ) : l.foldl min x = x ∨ l.foldl min x ∈ l := by
  induction l generalizing x with
  | nil => left; rfl
  | cons a t ih =>
    rcases ih (min x a) with h | h
    · rcases min_choice x a with hm | hm
      · left; rw [List.foldl_cons, h, hm]
      · right; rw [List.foldl_cons, h, hm]; exact List.mem_cons_self a t
    · right; exact List.mem_cons_of_mem a h

theorem foldl_min_le (x : ℝ) (l : List ℝ) :
    l.foldl min x ≤ x ∧ ∀ y ∈ l, l.foldl min x ≤ y := by
  induction l generalizing x with
  | nil => exact ⟨le_refl x, by simp⟩
  | cons a t ih =>
    obtain ⟨h1, h2⟩ := ih (min x a)
    refine ⟨le_trans h1 (min_le_left x a), ?_⟩
    intro y hy
    rcases List.mem_cons.mp hy with rfl | hy
    · exact le_trans h1 (min_le_right x y)
    · exact h2 y hy

theorem clamp01_mono {x y : ℝ} (h : x ≤ y) : max 0 (min 1 x) ≤ max 0 (min 1 y) :=
  max_le_max le_rfl (min_le_min le_rfl h)

/-! ## C1 -/

/-- C1 counterexample: the claim's direction is false on the code.  At the
default config, with the quote at the touch, raising the imbalance from 0
to 1/2 strictly lowers the bid-side hit probability (the code computes
base * (1 - 0.5 * imbalance) for the bid, so positive imbalance lowers,
not raises, the bid-hit probability). -/
theorem c1_counterexample :
    p_hit_bid {} { exState with imbalance := (1 : ℝ) / 2 } exQuote <
      p_hit_bid {} exState exQuote := by
  norm_num [p_hit_bid, dist_bid_ticks, exState, exQuote, Real.exp_zero]

/-- C1 amended: the bid-side hit probability is
base * (1 - 0.5 * imbalance) * exp(-distance), clamped to [0, 1], and the
ask side uses (1 + 0.5 * imbalance); the direction is the opposite of the
claim's: with a nonnegative base probability, a larger imbalance gives a
smaller (or equal) bid-hit probability and a larger (or equal) ask-hit
probability. -/
theorem c1_passive_hit_model (cfg : SimulationConfig) (state : MarketState)
    (quote : QuoteIntent) (i1 i2 : ℝ) (hbase : 0 ≤ cfg.passive_fill_prob_base)
    (h12 : i1 ≤ i2) :
    p_hit_bid cfg state quote =
      max 0 (min 1 (cfg.passive_fill_prob_base * (1 - 0.5 * state.imbalance) *
        Real.exp (-(dist_bid_ticks cfg state quote)))) ∧
    p_hit_ask cfg state quote =
      max 0 (min 1 (cfg.passive_fill_prob_base * (1 + 0.5 * state.imbalance) *
        Real.exp (-(dist_ask_ticks cfg state quote)))) ∧
    p_hit_bid cfg { state with imbalance := i2 } quote ≤
      p_hit_bid cfg { state with imbalance := i1 } quote ∧
    p_hit_ask cfg { state with imbalance := i1 } quote ≤
      p_hit_ask cfg { state with imbalance := i2 } quote := by
  have eb : ∀ i : ℝ, p_hit_bid cfg { state with imbalance := i } quote =
      max 0 (min 1 (cfg.passive_fill_prob_base * (1 - 0.5 * i) *
        Real.exp (-(dist_bid_ticks cfg state quote)))) := fun i => rfl
  have ea : ∀ i : ℝ, p_hit_ask cfg { state with imbalance := i } quote =
      max 0 (min 1 (cfg.passive_fill_prob_base * (1 + 0.5 * i) *
        Real.exp (-(dist_ask_ticks cfg state quote)))) := fun i => rfl
  have hE : (0 : ℝ) ≤ Real.exp (-(dist_bid_ticks cfg state quote)) := (Real.exp_pos _).le
  have hE' : (0 : ℝ) ≤ Real.exp (-(dist_ask_ticks cfg state quote)) := (Real.exp_pos _).le
  refine ⟨rfl, rfl, ?_, ?_⟩
  · rw [eb i1, eb i2]
    refine clamp01_mono (mul_le_mul_of_nonneg_right ?_ hE)
    exact mul_le_mul_of_nonneg_left (by linarith) hbase
  · rw [ea i1, ea i2]
    refine clamp01_mono (mul_le_mul_of_nonneg_right ?_ hE')
    exact mul_le_mul_of_nonneg_left (by linarith) hbase

/-- C1 witness: the amended direction at a concrete input. -/
theorem c1_witness :
    p_hit_bid {} { exState with imbalance := (1 : ℝ) / 2 } exQuote ≤
      p_hit_bid {} { exState with imbalance := (0 : ℝ) } exQuote :=
  (c1_passive_hit_model {} exState exQuote 0 (1 / 2)
    (show (0 : ℝ) ≤ 0.08 by norm_num) (by norm_num)).2.2.1

/-! ## C3 -/

/-- C3: determinism.  The engine's randomness is one seeded stream owned by
the Simulator, and the scenario's one seeded stream; with pointwise-equal
draw streams (identical seed) and identical config, events and strategy,
the run results, and the emitted scenario event sequences, are identical. -/
theorem c3_determinism {σ : Type} (cfg : SimulationConfig) (sc : SyntheticScenario)
    (events : List MarketEvent) (strat : Strategy σ) (s0 : σ) (r1 r2 : Rng)
    (h : ∀ n, r1 n = r2 n) :
    Simulator.run ⟨cfg, r1⟩ events strat s0 = Simulator.run ⟨cfg, r2⟩ events strat s0 ∧
    sc.stream r1 = sc.stream r2 := by
  have hr : r1 = r2 := funext h
  subst hr
  exact ⟨rfl, rfl⟩

/-- C3 witness: determinism applied at a concrete seed stream, config,
scenario and strategy. -/
theorem c3_witness :
    Simulator.run ⟨{}, zeroRng⟩ [] exStrat () = Simulator.run ⟨{}, zeroRng⟩ [] exStrat () ∧
    exScenario2.stream zeroRng = exScenario2.stream zeroRng :=
  c3_determinism {} exScenario2 [] exStrat () zeroRng zeroRng (fun _ => rfl)

/-! ## C5 -/

/-- C5: best_bid() / best_ask() return the empty-book error exactly when
the queried side has no levels (never a default), and on a non-empty side
return the highest bid price, respectively the lowest ask price. -/
theorem c5_best_quotes (b : OrderBook) :
    (b.bids = [] → b.best_bid = .error Err.noBids) ∧
    (b.bids ≠ [] → ∃ p, b.best_bid = .ok p ∧ p ∈ b.bids.map Prod.fst ∧
      ∀ q ∈ b.bids.map Prod.fst, q ≤ p) ∧
    (b.asks = [] → b.best_ask = .error Err.noAsks) ∧
    (b.asks ≠ [] → ∃ p, b.best_ask = .ok p ∧ p ∈ b.asks.map Prod.fst ∧
      ∀ q ∈ b.asks.map Prod.fst, p ≤ q) := by
  refine ⟨?_, ?_, ?_, ?_⟩
  · intro h
    simp [OrderBook.best_bid, h]
  · intro h
    match hb : b.bids with
    | [] => exact absurd hb h
    | e :: t =>
      refine ⟨((t.map Prod.fst).foldl max e.1), ?_, ?_, ?_⟩
      · simp [OrderBook.best_bid, hb]
      · simp only [List.map_cons]
        rcases foldl_max_mem e.1 (t.map Prod.fst) with hm | hm
        · rw [hm]; exact List.mem_cons_self _ _
        · exact List.mem_cons_of_mem _ hm
      · intro q hq
        simp only [List.map_cons, List.mem_cons] at hq
        rcases hq with rfl | hq
        · exact (le_foldl_max e.1 (t.map Prod.fst)).1
        · exact (le_foldl_max e.1 (t.map Prod.fst)).2 q hq
  · intro h
    simp [OrderBook.best_ask, h]
  · intro h
    match hb : b.asks with
    | [] => exact absurd hb h
    | e :: t =>
      refine ⟨((t.map Prod.fst).foldl min e.1), ?_, ?_, ?_⟩
      · simp [OrderBook.best_ask, hb]
      · simp only [List.map_cons]
        rcases foldl_min_mem e.1 (t.map Prod.fst) with hm | hm
        · rw [hm]; exact List.mem_cons_self _ _
        · exact List.mem_cons_of_mem _ hm
      · intro q hq
        simp only [List.map_cons, List.mem_cons] at hq
        rcases hq with rfl | hq
        · exact (foldl_min_le e.1 (t.map Prod.fst)).1
        · exact (foldl_min_le e.1 (t.map Prod.fst)).2 q hq

/-! ## C10 -/

theorem agg_buy_fill_len (cfg : SimulationConfig) (state : MarketState)
    (quote : QuoteIntent) (rng : Rng) (c : ℕ) :
    (agg_buy_fill cfg state quote rng c).1.length ≤ 1 := by
  unfold agg_buy_fill; split_ifs <;> simp

theorem agg_sell_fill_len (cfg : SimulationConfig) (state : MarketState)
    (quote : QuoteIntent) (rng : Rng) (c : ℕ) :
    (agg_sell_fill cfg state quote rng c).1.length ≤ 1 := by
  unfold agg_sell_fill; split_ifs <;> simp

theorem pas_buy_fill_len (cfg : SimulationConfig) (state : MarketState)
    (quote : QuoteIntent) (rng : Rng) (c : ℕ) :
    (pas_buy_fill cfg state quote rng c).1.length ≤ 1 := by
  unfold pas_buy_fill; split_ifs <;> simp

theorem pas_sell_fill_len (cfg : SimulationConfig) (state : MarketState)
    (quote : QuoteIntent) (rng : Rng) (c : ℕ) :
    (pas_sell_fill cfg state quote rng c).1.length ≤ 1 := by
  unfold pas_sell_fill; split_ifs <;> simp

theorem agg_buy_fill_ne (cfg : SimulationConfig) (state : MarketState)
    (quote : QuoteIntent) (rng : Rng) (c : ℕ)
    (h : (agg_buy_fill cfg state quote rng c).1 ≠ []) : state.best_ask ≤ quote.bid_px := by
  by_contra hc
  apply h
  unfold agg_buy_fill
  rw [if_neg (by simpa using hc)]

theorem pas_buy_fill_ne (cfg : SimulationConfig) (state : MarketState)
    (quote : QuoteIntent) (rng : Rng) (c : ℕ)
    (h : (pas_buy_fill cfg state quote rng c).1 ≠ []) : quote.bid_px < state.best_ask := by
  by_contra hc
  apply h
  unfold pas_buy_fill
  rw [if_neg (by simpa using hc)]

theorem agg_sell_fill_ne (cfg : SimulationConfig) (state : MarketState)
    (quote : QuoteIntent) (rng : Rng) (c : ℕ)
    (h : (agg_sell_fill cfg state quote rng c).1 ≠ []) : quote.ask_px ≤ state.best_bid := by
  by_contra hc
  apply h
  unfold agg_sell_fill
  rw [if_neg (by simpa using hc)]

theorem pas_sell_fill_ne (cfg : SimulationConfig) (state : MarketState)
    (quote : QuoteIntent) (rng : Rng) (c : ℕ)
    (h : (pas_sell_fill cfg state quote rng c).1 ≠ []) : state.best_bid < quote.ask_px := by
  by_contra hc
  apply h
  unfold pas_sell_fill
  rw [if_neg (by simpa using hc)]

theorem agg_buy_fill_sides (cfg : SimulationConfig) (state : MarketState)
    (quote : QuoteIntent) (rng : Rng) (c : ℕ) :
    ∀ f ∈ (agg_buy_fill cfg state quote rng c).1, f.side = Side.buy := by
  unfold agg_buy_fill; split_ifs <;> simp

theorem agg_sell_fill_sides (cfg : SimulationConfig) (state : MarketState)
    (quote : QuoteIntent) (rng : Rng) (c : ℕ) :
    ∀ f ∈ (agg_sell_fill cfg state quote rng c).1, f.side = Side.sell := by
  unfold agg_sell_fill; split_ifs <;> simp

theorem pas_buy_fill_sides (cfg : SimulationConfig) (state : MarketState)
    (quote : QuoteIntent) (rng : Rng) (c : ℕ) :
    ∀ f ∈ (pas_buy_fill cfg state quote rng c).1, f.side = Side.buy := by
  unfold pas_buy_fill; split_ifs <;> simp

theorem pas_sell_fill_sides (cfg : SimulationConfig) (state : MarketState)
    (quote : QuoteIntent) (rng : Rng) (c : ℕ) :
    ∀ f ∈ (pas_sell_fill cfg state quote rng c).1, f.side = Side.sell := by
  unfold pas_sell_fill; split_ifs <;> simp

theorem four_lists_bound (A B P Q : List Fill)
    (hA : A.length ≤ 1) (hB : B.length ≤ 1) (hP : P.length ≤ 1) (hQ : Q.length ≤ 1)
    (hAP : A = [] ∨ P = []) (hBQ : B = [] ∨ Q = [])
    (hAbuy : ∀ f ∈ A, f.side = Side.buy) (hPbuy : ∀ f ∈ P, f.side = Side.buy)
    (hBsell : ∀ f ∈ B, f.side = Side.sell) (hQsell : ∀ f ∈ Q, f.side = Side.sell) :
    (A ++ B ++ P ++ Q).length ≤ 2 ∧
    ((A ++ B ++ P ++ Q).filter (fun f => decide (f.side = Side.buy))).length ≤ 1 ∧
    ((A ++ B ++ P ++ Q).filter (fun f => decide (f.side = Side.sell))).length ≤ 1 := by
  have hBf : (B.filter (fun f => decide (f.side = Side.buy))) = [] := by
    rw [List.filter_eq_nil_iff]
    intro f hf
    simp [hBsell f hf]
  have hQf : (Q.filter (fun f => decide (f.side = Side.buy))) = [] := by
    rw [List.filter_eq_nil_iff]
    intro f hf
    simp [hQsell f hf]
  have hAf : (A.filter (fun f => decide (f.side = Side.sell))) = [] := by
    rw [List.filter_eq_nil_iff]
    intro f hf
    simp [hAbuy f hf]
  have hPf : (P.filter (fun f => decide (f.side = Side.sell))) = [] := by
    rw [List.filter_eq_nil_iff]
    intro f hf
    simp [hPbuy f hf]
  have lA := List.length_filter_le (fun f => decide (f.side = Side.buy)) A
  have lP := List.length_filter_le (fun f => decide (f.side = Side.buy)) P
  have lB := List.length_filter_le (fun f => decide (f.side = Side.sell)) B
  have lQ := List.length_filter_le (fun f => decide (f.side = Side.sell)) Q
  have hAP' : A.length = 0 ∨ P.length = 0 := by
    rcases hAP with h | h <;> simp [h]
  have hBQ' : B.length = 0 ∨ Q.length = 0 := by
    rcases hBQ with h | h <;> simp [h]
  refine ⟨?_, ?_, ?_⟩
  · simp only [List.length_append]
    omega
  · simp only [List.filter_append, hBf, hQf, List.append_nil, List.nil_append,
      List.length_append]
    omega
  · simp only [List.filter_append, hAf, hPf, List.append_nil, List.nil_append,
      List.length_append]
    omega

/-- C10: within one step, the aggressive and passive conditions on one
quoted side are mutually exclusive (bid_px ≥ best_ask versus
bid_px < best_ask, and symmetrically), so _simulate_fills returns at most
one buy candidate, at most one sell candidate, and at most two candidates
in total. -/
theorem c10_at_most_one_per_side (cfg : SimulationConfig) (state : MarketState)
    (quote : QuoteIntent) (rng : Rng) (c0 : ℕ) :
    (simulate_fills cfg state quote rng c0).1.length ≤ 2 ∧
    ((simulate_fills cfg state quote rng c0).1.filter
      (fun f => decide (f.side = Side.buy))).length ≤ 1 ∧
    ((simulate_fills cfg state quote rng c0).1.filter
      (fun f => decide (f.side = Side.sell))).length ≤ 1 := by
  have hAP : (agg_buy_fill cfg state quote rng c0).1 = [] ∨
      (pas_buy_fill cfg state quote rng
        (agg_sell_fill cfg state quote rng (agg_buy_fill cfg state quote rng c0).2).2).1 = [] := by
    by_cases hae : (agg_buy_fill cfg state quote rng c0).1 = []
    · exact Or.inl hae
    · refine Or.inr ?_
      by_contra hpe
      have h1 := agg_buy_fill_ne cfg state quote rng c0 hae
      have h2 := pas_buy_fill_ne cfg state quote rng
        (agg_sell_fill cfg state quote rng (agg_buy_fill cfg state quote rng c0).2).2 hpe
      linarith
  have hBQ : (agg_sell_fill cfg state quote rng (agg_buy_fill cfg state quote rng c0).2).1 = [] ∨
      (pas_sell_fill cfg state quote rng
        (pas_buy_fill cfg state quote rng
          (agg_sell_fill cfg state quote rng (agg_buy_fill cfg state quote rng c0).2).2).2).1
        = [] := by
    by_cases hbe : (agg_sell_fill cfg state quote rng (agg_buy_fill cfg state quote rng c0).2).1 = []
    · exact Or.inl hbe
    · refine Or.inr ?_
      by_contra hqe
      have h1 := agg_sell_fill_ne cfg state quote rng (agg_buy_fill cfg state quote rng c0).2 hbe
      have h2 := pas_sell_fill_ne cfg state quote rng
        (pas_buy_fill cfg state quote rng
          (agg_sell_fill cfg state quote rng (agg_buy_fill cfg state quote rng c0).2).2).2 hqe
      linarith
  exact four_lists_bound
    (agg_buy_fill cfg state quote rng c0).1
    (agg_sell_fill cfg state quote rng (agg_buy_fill cfg state quote rng c0).2).1
    (pas_buy_fill cfg state quote rng
      (agg_sell_fill cfg state quote rng (agg_buy_fill cfg state quote rng c0).2).2).1
    (pas_sell_fill cfg state quote rng
      (pas_buy_fill cfg state quote rng
        (agg_sell_fill cfg state quote rng (agg_buy_fill cfg state quote rng c0).2).2).2).1
    (agg_buy_fill_len cfg state quote rng c0)
    (agg_sell_fill_len cfg state quote rng _)
    (pas_buy_fill_len cfg state quote rng _)
    (pas_sell_fill_len cfg state quote rng _)
    hAP hBQ
    (agg_buy_fill_sides cfg state quote rng _)
    (pas_buy_fill_sides cfg state quote rng _)
    (agg_sell_fill_sides cfg state quote rng _)
    (pas_sell_fill_sides cfg state quote rng _)

/-! ## Dict and book lemmas (for C4 and C8) -/

theorem dictInsert_all {p : ℝ × ℝ → Prop} {book : List (ℝ × ℝ)} {key val : ℝ}
    (hb : ∀ e ∈ book, p e) (hv : p (key, val)) : ∀ e ∈ dictInsert book key val, p e := by
  unfold dictInsert
  split_ifs with h
  · intro e he
    rcases List.mem_map.mp he with ⟨x, hx, hex⟩
    by_cases hk : x.1 = key
    · rw [if_pos hk] at hex
      rw [← hex]; exact hv
    · rw [if_neg hk] at hex
      rw [← hex]; exact hb x hx
  · intro e he
    rcases List.mem_append.mp he with he | he
    · exact hb e he
    · rw [List.mem_singleton.mp he]; exact hv

theorem dictOf_all {p : ℝ × ℝ → Prop} (entries : List (ℝ × ℝ))
    (h : ∀ e ∈ entries, p e) : ∀ e ∈ dictOf entries, p e := by
  suffices H : ∀ (es : List (ℝ × ℝ)) (acc : List (ℝ × ℝ)), (∀ e ∈ acc, p e) →
      (∀ e ∈ es, p e) → ∀ e ∈ es.foldl (fun acc e => dictInsert acc e.1 e.2) acc, p e by
    exact H entries [] (by simp) h
  intro es
  induction es with
  | nil => intro acc hacc _ e he; exact hacc e he
  | cons a t ih =>
    intro acc hacc hes e he
    refine ih (dictInsert acc a.1 a.2) ?_ (fun x hx => hes x (List.mem_cons_of_mem a hx)) e he
    exact dictInsert_all hacc (by
      have := hes a (List.mem_cons_self a t)
      simpa using this)

theorem dictPop_subset {book : List (ℝ × ℝ)} {key : ℝ} :
    ∀ e ∈ dictPop book key, e ∈ book := fun _ he => List.mem_of_mem_filter he

theorem dictGetD_nonneg {book : List (ℝ × ℝ)} {key : ℝ}
    (h : ∀ e ∈ book, 0 ≤ e.2) : 0 ≤ dictGetD book key 0 := by
  unfold dictGetD
  cases hf : book.find? (fun e => decide (e.1 = key)) with
  | none => exact le_refl 0
  | some e => exact h e (List.mem_of_find?_eq_some hf)

theorem best_bid_of_nil {b : OrderBook} (h : b.bids = []) :
    b.best_bid = .error Err.noBids := by
  simp [OrderBook.best_bid, h]

theorem best_ask_of_nil {b : OrderBook} (h : b.asks = []) :
    b.best_ask = .error Err.noAsks := by
  simp [OrderBook.best_ask, h]

theorem best_bid_of_ne_nil {b : OrderBook} (h : b.bids ≠ []) :
    ∃ p, b.best_bid = .ok p := by
  unfold OrderBook.best_bid
  cases hb : b.bids with
  | nil => exact absurd hb h
  | cons e t => exact ⟨_, rfl⟩

/-- The imbalance computation when both best quotes resolve. -/
theorem imbalance_ok_ok {b : OrderBook} {bb ba : ℝ}
    (hbb : b.best_bid = .ok bb) (hba : b.best_ask = .ok ba) :
    b.imbalance =
      if dictGetD b.bids bb 0 + dictGetD b.asks ba 0 ≤ 0 then .ok 0
      else .ok ((dictGetD b.bids bb 0 - dictGetD b.asks ba 0) /
        (dictGetD b.bids bb 0 + dictGetD b.asks ba 0)) := by
  unfold OrderBook.imbalance
  rw [hbb, hba]
  rfl

/-- The imbalance computation propagates the best_bid error. -/
theorem imbalance_err_left {b : OrderBook} {e : Err}
    (hbb : b.best_bid = .error e) : b.imbalance = .error e := by
  unfold OrderBook.imbalance
  rw [hbb]
  rfl

/-- The imbalance computation propagates the best_ask error. -/
theorem imbalance_err_right {b : OrderBook} {bb : ℝ} {e : Err}
    (hbb : b.best_bid = .ok bb) (hba : b.best_ask = .error e) :
    b.imbalance = .error e := by
  unfold OrderBook.imbalance
  rw [hbb, hba]
  rfl

/-! ## C4 -/

/-- C4 counterexample: set_top with a negative bid size stores a level of
size max(0, -1) = 0 rather than removing or omitting it, so a level with
size ≤ 0 is stored. -/
theorem c4_counterexample :
    ((OrderBook.set_top { tick_size := 0.5 } 99.5 (-1) 100.5 2).bids).map Prod.snd
      = [0] := by
  simp only [OrderBook.set_top, List.map_cons, List.map_nil]
  norm_num

/-- C4 amended: set_depth stores only levels with size strictly greater
than 0, and update_level preserves strict positivity of all stored sizes
(removing on size ≤ 0, upserting on size > 0); set_top, however, installs
exactly one level per side with size clamped to max(0, given size), so a
non-positive given size is stored as a zero-size level, not removed. -/
theorem c4_size_positivity (b : OrderBook) (bid_levels ask_levels : List (ℝ × ℝ))
    (side : String) (price size bb bs ba asz : ℝ) :
    (∀ e ∈ (b.set_depth bid_levels ask_levels).bids, 0 < e.2) ∧
    (∀ e ∈ (b.set_depth bid_levels ask_levels).asks, 0 < e.2) ∧
    ((∀ e ∈ b.bids, 0 < e.2) → (∀ e ∈ b.asks, 0 < e.2) →
      (∀ e ∈ (b.update_level side price size).bids, 0 < e.2) ∧
      (∀ e ∈ (b.update_level side price size).asks, 0 < e.2)) ∧
    (b.set_top bb bs ba asz).bids = [(roundKey bb, max 0 bs)] ∧
    (b.set_top bb bs ba asz).asks = [(roundKey ba, max 0 asz)] ∧
    (∀ e ∈ (b.set_top bb bs ba asz).bids, 0 ≤ e.2) ∧
    (∀ e ∈ (b.set_top bb bs ba asz).asks, 0 ≤ e.2) := by
  have hdepth : ∀ (levels : List (ℝ × ℝ)),
      ∀ e ∈ dictOf ((levels.filter (fun e => decide (0 < e.2))).map
        (fun e => (roundKey e.1, max 0 e.2))), 0 < e.2 := by
    intro levels
    refine dictOf_all _ ?_
    intro e he
    rcases List.mem_map.mp he with ⟨x, hx, hex⟩
    have hxpos : 0 < x.2 := by
      have := List.of_mem_filter hx
      simpa using this
    rw [← hex]
    exact lt_of_lt_of_le hxpos (le_max_right 0 x.2)
  refine ⟨hdepth bid_levels, hdepth ask_levels, ?_, rfl, rfl, ?_, ?_⟩
  · intro hb ha
    unfold OrderBook.update_level
    split_ifs with hside hsz hsz
    · exact ⟨fun e he => hb e (dictPop_subset e he), ha⟩
    · exact ⟨dictInsert_all hb (by simpa using lt_of_not_le hsz), ha⟩
    · exact ⟨hb, fun e he => ha e (dictPop_subset e he)⟩
    · exact ⟨hb, dictInsert_all ha (by simpa using lt_of_not_le hsz)⟩
  · intro e he
    rw [List.mem_singleton.mp he]
    exact le_max_left 0 bs
  · intro e he
    rw [List.mem_singleton.mp he]
    exact le_max_left 0 asz

/-! ## C8 -/

/-- C8 counterexample: on a fully empty book, imbalance() propagates the
empty-book ValueError from best_bid() instead of returning 0. -/
theorem c8_counterexample :
    OrderBook.imbalance { tick_size := 0.5 } = .error Err.noBids ∧
    OrderBook.imbalance { tick_size := 0.5 } ≠ Except.ok 0 := by
  refine ⟨rfl, ?_⟩
  intro h
  rw [show OrderBook.imbalance { tick_size := 0.5 } = Except.error Err.noBids from rfl] at h
  exact Except.noConfusion h

/-- C8 amended: whenever imbalance() returns a value (both sides
non-empty) and all stored sizes are nonnegative, the value lies in
[-1, 1], and it is 0 whenever the two top-of-book sizes sum to ≤ 0; but
with an empty side imbalance() raises the empty-book error rather than
returning 0. -/
theorem c8_imbalance_range (b : OrderBook) :
    ((∀ e ∈ b.bids, 0 ≤ e.2) → (∀ e ∈ b.asks, 0 ≤ e.2) →
      ∀ v, b.imbalance = .ok v → -1 ≤ v ∧ v ≤ 1) ∧
    (b.bids = [] → b.imbalance = .error Err.noBids) ∧
    (b.bids ≠ [] → b.asks = [] → b.imbalance = .error Err.noAsks) ∧
    (∀ bb ba, b.best_bid = .ok bb → b.best_ask = .ok ba →
      dictGetD b.bids bb 0 + dictGetD b.asks ba 0 ≤ 0 → b.imbalance = .ok 0) := by
  refine ⟨?_, ?_, ?_, ?_⟩
  · intro hbpos hapos v hv
    cases hbb : b.best_bid with
    | error e => rw [imbalance_err_left hbb] at hv; simp at hv
    | ok bb =>
      cases hba : b.best_ask with
      | error e => rw [imbalance_err_right hbb hba] at hv; simp at hv
      | ok ba =>
        rw [imbalance_ok_ok hbb hba] at hv
        have hbs : 0 ≤ dictGetD b.bids bb 0 := dictGetD_nonneg hbpos
        have has : 0 ≤ dictGetD b.asks ba 0 := dictGetD_nonneg hapos
        by_cases htot : dictGetD b.bids bb 0 + dictGetD b.asks ba 0 ≤ 0
        · rw [if_pos htot] at hv
          have hv0 : v = 0 := by simpa using hv.symm
          rw [hv0]; norm_num
        · rw [if_neg htot] at hv
          have hpos : 0 < dictGetD b.bids bb 0 + dictGetD b.asks ba 0 := lt_of_not_le htot
          have hveq : v = (dictGetD b.bids bb 0 - dictGetD b.asks ba 0) /
              (dictGetD b.bids bb 0 + dictGetD b.asks ba 0) := by simpa using hv.symm
          rw [hveq]
          constructor
          · rw [le_div_iff₀ hpos]; linarith
          · rw [div_le_one hpos]; linarith
  · intro h
    exact imbalance_err_left (best_bid_of_nil h)
  · intro hb ha
    obtain ⟨p, hp⟩ := best_bid_of_ne_nil hb
    exact imbalance_err_right hp (best_ask_of_nil ha)
  · intro bb ba hbb hba htot
    rw [imbalance_ok_ok hbb hba, if_pos htot]

/-! ## C6 -/

theorem annotate_fills_getD (horizon : ℕ) (mid_path : List ℝ) (fills : List Fill)
    (hh : 0 < horizon) (hm : mid_path ≠ []) (i : ℕ) (hi : i < fills.length) :
    (annotate_fills horizon mid_path fills).getD i dummyFill =
      { fills.getD i dummyFill with
        mid_after := mid_path.getD (min ((fills.getD i dummyFill).step + horizon) (mid_path.length - 1)) 0 } := by
  unfold annotate_fills
  rw [if_pos ⟨hh, hm⟩]
  have hi' : i < (fills.map (fun f : Fill =>
      { f with mid_after := mid_path.getD (min (f.step + horizon) (mid_path.length - 1)) 0 })).length := by
    rw [List.length_map]
    exact hi
  rw [List.getD_eq_getElem _ _ hi', List.getElem_map, List.getD_eq_getElem _ _ hi]

/-- C6: the run result is exactly the forward-loop state packaged by the
pure second pass: all four series are those of the completed forward loop,
unmodified, and when the pass runs (positive horizon, nonempty mid
series) every recorded fill is the forward-loop fill with only mid_after
replaced by the mid series value at index min(step + horizon, last). -/
theorem c6_adverse_selection_pass {σ : Type} (cfg : SimulationConfig) (rng : Rng)
    (events : List MarketEvent) (strat : Strategy σ) (s0 : σ) (s : RunState)
    (h : run_core cfg rng events strat s0 = .ok s) :
    Simulator.run ⟨cfg, rng⟩ events strat s0 = .ok (mkResult cfg s) ∧
    (mkResult cfg s).pnl_path = s.pnl_path ∧
    (mkResult cfg s).inventory_path = s.inv_path ∧
    (mkResult cfg s).mid_path = s.mid_path ∧
    (mkResult cfg s).spread_path = s.spread_path ∧
    (mkResult cfg s).fills =
      annotate_fills cfg.adverse_selection_horizon s.mid_path s.fills ∧
    (0 < cfg.adverse_selection_horizon → s.mid_path ≠ [] →
      ∀ i < s.fills.length,
        (mkResult cfg s).fills.getD i dummyFill =
          { s.fills.getD i dummyFill with
            mid_after := s.mid_path.getD (min ((s.fills.getD i dummyFill).step + cfg.adverse_selection_horizon) (s.mid_path.length - 1)) 0 }) := by
  refine ⟨?_, rfl, rfl, rfl, rfl, rfl, ?_⟩
  · unfold Simulator.run
    rw [h]
    rfl
  · intro hh hm i hi
    exact annotate_fills_getD cfg.adverse_selection_horizon s.mid_path s.fills hh hm i hi

/-- C6 witness: the packaging equation on the empty event list. -/
theorem c6_witness :
    Simulator.run ⟨{}, zeroRng⟩ [] exStrat () =
      .ok (mkResult {} (initState {})) :=
  (c6_adverse_selection_pass {} zeroRng [] exStrat () (initState {}) rfl).1

/-! ## C9 -/

theorem pstdev_pos {l : List ℝ} {x : ℝ} (hx : x ∈ l) (hne : x ≠ listMean l) :
    0 < pstdev l := by
  have hl : 0 < l.length := List.length_pos.mpr (List.ne_nil_of_mem hx)
  have hsq : (x - listMean l) ^ 2 ∈ l.map (fun y => (y - listMean l) ^ 2) :=
    List.mem_map_of_mem _ hx
  have hpos : 0 < (x - listMean l) ^ 2 := by
    have hz : x - listMean l ≠ 0 := sub_ne_zero.mpr hne
    rcases hz.lt_or_lt with hlt | hlt <;> nlinarith
  have hnonneg : ∀ y ∈ l.map (fun y => (y - listMean l) ^ 2), 0 ≤ y := by
    intro y hy
    rcases List.mem_map.mp hy with ⟨z, _, rfl⟩
    positivity
  have hsum : 0 < (l.map (fun y => (y - listMean l) ^ 2)).sum :=
    lt_of_lt_of_le hpos (List.single_le_sum hnonneg _ hsq)
  have hq : 0 < (l.map (fun y => (y - listMean l) ^ 2)).sum / (l.length : ℝ) := by
    apply div_pos hsum
    exact_mod_cast hl
  exact Real.sqrt_pos.mpr hq

/-- The sharpe_annualized field of summarize, written out. -/
theorem summarize_sharpe (path inventory : List ℝ) (fills : List Fill)
    (fees ppy : ℝ) :
    (summarize path inventory fills fees ppy).sharpe_annualized =
      if 0 < (if 1 < (retsOf path).length then pstdev (retsOf path) else 0) then
        (if retsOf path ≠ [] then listMean (retsOf path) else 0) /
          (if 1 < (retsOf path).length then pstdev (retsOf path) else 0) *
          (if 0 < ppy then Real.sqrt ppy else 0)
      else 0 := rfl

/-- C9: with a fixed PnL path having two strictly different consecutive
returns (so the population standard deviation of the returns is positive)
and a positive periods_per_year, scaling periods_per_year by k > 0 scales
the annualized Sharpe ratio by exactly sqrt k; the ratio itself is mean
return over population standard deviation times sqrt periods_per_year. -/
theorem c9_sharpe_scaling (path inventory : List ℝ) (fills : List Fill)
    (fees ppy k : ℝ) (hppy : 0 < ppy) (hk : 0 < k)
    (hdiff : ∃ i, i + 1 < (retsOf path).length ∧
      (retsOf path).getD i 0 ≠ (retsOf path).getD (i + 1) 0) :
    (summarize path inventory fills fees (k * ppy)).sharpe_annualized =
      Real.sqrt k * (summarize path inventory fills fees ppy).sharpe_annualized := by
  obtain ⟨i, hi, hne⟩ := hdiff
  have hi0 : i < (retsOf path).length := by omega
  have hlen : 1 < (retsOf path).length := by omega
  have hmem1 : (retsOf path).getD i 0 ∈ retsOf path := by
    rw [List.getD_eq_getElem _ _ hi0]
    exact List.getElem_mem hi0
  have hmem2 : (retsOf path).getD (i + 1) 0 ∈ retsOf path := by
    rw [List.getD_eq_getElem _ _ hi]
    exact List.getElem_mem hi
  have hx : ∃ x ∈ retsOf path, x ≠ listMean (retsOf path) := by
    by_contra hcon
    push_neg at hcon
    exact hne ((hcon _ hmem1).trans (hcon _ hmem2).symm)
  obtain ⟨x, hxm, hxne⟩ := hx
  have hstd : 0 < pstdev (retsOf path) := pstdev_pos hxm hxne
  have hr : retsOf path ≠ [] := by
    intro h0
    rw [h0] at hlen
    simp at hlen
  rw [summarize_sharpe, summarize_sharpe]
  rw [if_pos hlen, if_pos hr, if_pos hstd, if_pos hppy, if_pos (mul_pos hk hppy),
    Real.sqrt_mul hk.le, if_pos hstd]
  ring

/-- C9 witness: the path [0, 1, 0] has returns [1, -1]; scaling
periods_per_year from 4 by k = 9 scales the Sharpe by sqrt 9. -/
theorem c9_witness :
    (summarize [0, 1, 0] [] [] 0 ((9 : ℝ) * 4)).sharpe_annualized =
      Real.sqrt 9 * (summarize [0, 1, 0] [] [] 0 (4 : ℝ)).sharpe_annualized :=
  c9_sharpe_scaling [0, 1, 0] [] [] 0 4 9 (by norm_num) (by norm_num)
    ⟨0, by norm_num [retsOf], by norm_num [retsOf]⟩

/-! ## C2 -/

theorem except_ok_bind {ε α β : Type} (a : α) (f : α → Except ε β) :
    (Except.ok a >>= f) = f a := rfl

theorem except_error_bind {ε α β : Type} (e : ε) (f : α → Except ε β) :
    ((Except.error e : Except ε α) >>= f) = Except.error e := rfl

theorem bounded_buy_le (cfg : SimulationConfig) (sz inv : ℝ)
    (h : 0 < bounded_fill_size cfg Side.buy sz inv) :
    bounded_fill_size cfg Side.buy sz inv ≤ cfg.max_inventory - inv := by
  unfold bounded_fill_size at h ⊢
  split_ifs at h ⊢ with hsz
  · exact absurd h (lt_irrefl 0)
  · rcases le_or_lt (min sz (cfg.max_inventory - inv)) 0 with hm | hm
    · rw [max_eq_left hm] at h
      exact absurd h (lt_irrefl 0)
    · rw [max_eq_right hm.le]
      exact min_le_right _ _

theorem bounded_sell_le (cfg : SimulationConfig) (sz inv : ℝ)
    (h : 0 < bounded_fill_size cfg Side.sell sz inv) :
    bounded_fill_size cfg Side.sell sz inv ≤ inv + cfg.max_inventory := by
  unfold bounded_fill_size at h ⊢
  split_ifs at h ⊢ with hsz
  · exact absurd h (lt_irrefl 0)
  · rcases le_or_lt (min sz (inv + cfg.max_inventory)) 0 with hm | hm
    · rw [max_eq_left hm] at h
      exact absurd h (lt_irrefl 0)
    · rw [max_eq_right hm.le]
      exact min_le_right _ _

theorem apply_fill_inv (cfg : SimulationConfig) (state : MarketState) (s : RunState)
    (fill : Fill) (hinv : |s.inv| ≤ cfg.max_inventory)
    (hfills : ∀ f ∈ s.fills, 0 < f.size) :
    |(apply_fill cfg state s fill).inv| ≤ cfg.max_inventory ∧
    (apply_fill cfg state s fill).inv_path = s.inv_path ∧
    (∀ f ∈ (apply_fill cfg state s fill).fills, 0 < f.size) := by
  obtain ⟨hlo, hhi⟩ := abs_le.mp hinv
  by_cases hsz : bounded_fill_size cfg fill.side fill.size s.inv ≤ 0
  · have he : apply_fill cfg state s fill = s := by
      simp only [apply_fill]
      rw [if_pos hsz]
    rw [he]
    exact ⟨hinv, rfl, hfills⟩
  · push_neg at hsz
    by_cases hside : fill.side = Side.buy
    · have hi : (apply_fill cfg state s fill).inv =
          s.inv + bounded_fill_size cfg fill.side fill.size s.inv := by
        simp only [apply_fill]
        rw [if_neg (not_le.mpr hsz), if_pos hside]
      have hp : (apply_fill cfg state s fill).inv_path = s.inv_path := by
        simp only [apply_fill]
        rw [if_neg (not_le.mpr hsz), if_pos hside]
      have hg : ∀ f ∈ (apply_fill cfg state s fill).fills,
          f ∈ s.fills ∨ f.size = bounded_fill_size cfg fill.side fill.size s.inv := by
        have hf : (apply_fill cfg state s fill).fills = s.fills ++
            [{ side := fill.side, price := fill.price,
               size := bounded_fill_size cfg fill.side fill.size s.inv,
               fee := if 0 < fill.size then
                 fill.fee * (bounded_fill_size cfg fill.side fill.size s.inv / fill.size) else 0,
               step := fill.step, mid_before := state.mid }] := by
          simp only [apply_fill]
          rw [if_neg (not_le.mpr hsz), if_pos hside]
        intro f hf'
        rw [hf] at hf'
        rcases List.mem_append.mp hf' with hm | hm
        · exact Or.inl hm
        · rw [List.mem_singleton.mp hm]
          exact Or.inr rfl
      have hle := bounded_buy_le cfg fill.size s.inv (hside ▸ hsz)
      rw [← hside] at hle
      refine ⟨by rw [hi]; exact abs_le.mpr ⟨by linarith, by linarith⟩, hp, ?_⟩
      intro f hf'
      rcases hg f hf' with hm | hm
      · exact hfills f hm
      · rw [hm]; exact hsz
    · have hcs : fill.side = Side.sell := by
        cases hx : fill.side
        · exact absurd hx hside
        · rfl
      have hside' : ¬ (fill.side = Side.buy) := hside
      have hi : (apply_fill cfg state s fill).inv =
          s.inv - bounded_fill_size cfg fill.side fill.size s.inv := by
        simp only [apply_fill]
        rw [if_neg (not_le.mpr hsz), if_neg hside']
      have hp : (apply_fill cfg state s fill).inv_path = s.inv_path := by
        simp only [apply_fill]
        rw [if_neg (not_le.mpr hsz), if_neg hside']
      have hg : ∀ f ∈ (apply_fill cfg state s fill).fills,
          f ∈ s.fills ∨ f.size = bounded_fill_size cfg fill.side fill.size s.inv := by
        have hf : (apply_fill cfg state s fill).fills = s.fills ++
            [{ side := fill.side, price := fill.price,
               size := bounded_fill_size cfg fill.side fill.size s.inv,
               fee := if 0 < fill.size then
                 fill.fee * (bounded_fill_size cfg fill.side fill.size s.inv / fill.size) else 0,
               step := fill.step, mid_before := state.mid }] := by
          simp only [apply_fill]
          rw [if_neg (not_le.mpr hsz), if_neg hside']
        intro f hf'
        rw [hf] at hf'
        rcases List.mem_append.mp hf' with hm | hm
        · exact Or.inl hm
        · rw [List.mem_singleton.mp hm]
          exact Or.inr rfl
      have hle := bounded_sell_le cfg fill.size s.inv (hcs ▸ hsz)
      rw [← hcs] at hle
      refine ⟨by rw [hi]; exact abs_le.mpr ⟨by linarith, by linarith⟩, hp, ?_⟩
      intro f hf'
      rcases hg f hf' with hm | hm
      · exact hfills f hm
      · rw [hm]; exact hsz

theorem foldl_apply_fill_inv (cfg : SimulationConfig) (state : MarketState) :
    ∀ (fs : List Fill) (s : RunState), |s.inv| ≤ cfg.max_inventory →
    (∀ f ∈ s.fills, 0 < f.size) →
    |(fs.foldl (apply_fill cfg state) s).inv| ≤ cfg.max_inventory ∧
    (fs.foldl (apply_fill cfg state) s).inv_path = s.inv_path ∧
    (∀ f ∈ (fs.foldl (apply_fill cfg state) s).fills, 0 < f.size) := by
  intro fs
  induction fs with
  | nil => intro s h1 h3; exact ⟨h1, rfl, h3⟩
  | cons a t ih =>
    intro s h1 h3
    obtain ⟨g1, g2, g3⟩ := apply_fill_inv cfg state s a h1 h3
    obtain ⟨k1, k2, k3⟩ := ih (apply_fill cfg state s a) g1 g3
    exact ⟨k1, k2.trans g2, k3⟩

theorem stepFillsState_inv (cfg : SimulationConfig) (rng : Rng) (state : MarketState)
    (quote : QuoteIntent) (s : RunState) (book : OrderBook)
    (h1 : |s.inv| ≤ cfg.max_inventory) (h3 : ∀ f ∈ s.fills, 0 < f.size) :
    |(stepFillsState cfg rng state quote s book).inv| ≤ cfg.max_inventory ∧
    (stepFillsState cfg rng state quote s book).inv_path = s.inv_path ∧
    (∀ f ∈ (stepFillsState cfg rng state quote s book).fills, 0 < f.size) := by
  simp only [stepFillsState]
  exact foldl_apply_fill_inv cfg state _ _ h1 h3

theorem runStep_inv {σ : Type} (cfg : SimulationConfig) (rng : Rng) (strat : Strategy σ)
    (acc : RunState × σ) (event : MarketEvent) (out : RunState × σ)
    (h : runStep cfg rng strat acc event = .ok out)
    (h1 : |acc.1.inv| ≤ cfg.max_inventory)
    (h2 : ∀ x ∈ acc.1.inv_path, |x| ≤ cfg.max_inventory)
    (h3 : ∀ f ∈ acc.1.fills, 0 < f.size) :
    |out.1.inv| ≤ cfg.max_inventory ∧
    (∀ x ∈ out.1.inv_path, |x| ≤ cfg.max_inventory) ∧
    (∀ f ∈ out.1.fills, 0 < f.size) := by
  simp only [runStep] at h
  split at h
  · exact absurd h (by simp)
  · rename_i state heq
    split at h
    · exact absurd h (by simp)
    · rename_i u hvq
      have hout := (Except.ok.inj h).symm
      obtain ⟨g1, g2, g3⟩ := stepFillsState_inv cfg rng state
        (strat acc.2 state acc.1.inv).1 acc.1 (bookOf acc.1.book event) h1 h3
      rw [hout]
      simp only [appendSeries]
      refine ⟨g1, ?_, g3⟩
      intro x hx
      rw [g2] at hx
      rcases List.mem_append.mp hx with hx | hx
      · exact h2 x hx
      · rw [List.mem_singleton.mp hx]
        exact g1

theorem run_core_inv {σ : Type} (cfg : SimulationConfig) (rng : Rng) (strat : Strategy σ) :
    ∀ (events : List MarketEvent) (acc : RunState × σ) (out : RunState × σ),
    events.foldlM (runStep cfg rng strat) acc = .ok out →
    |acc.1.inv| ≤ cfg.max_inventory →
    (∀ x ∈ acc.1.inv_path, |x| ≤ cfg.max_inventory) →
    (∀ f ∈ acc.1.fills, 0 < f.size) →
    |out.1.inv| ≤ cfg.max_inventory ∧
    (∀ x ∈ out.1.inv_path, |x| ≤ cfg.max_inventory) ∧
    (∀ f ∈ out.1.fills, 0 < f.size) := by
  intro events
  induction events with
  | nil =>
    intro acc out h h1 h2 h3
    simp only [List.foldlM_nil] at h
    cases h
    exact ⟨h1, h2, h3⟩
  | cons e es ih =>
    intro acc out h h1 h2 h3
    rw [List.foldlM_cons] at h
    cases hstep : runStep cfg rng strat acc e with
    | error err =>
      rw [hstep, except_error_bind] at h
      exact absurd h (by simp)
    | ok acc2 =>
      rw [hstep, except_ok_bind] at h
      obtain ⟨g1, g2, g3⟩ := runStep_inv cfg rng strat acc e acc2 hstep h1 h2 h3
      exact ih acc2 out h g1 g2 g3

theorem annotate_fills_sizes (horizon : ℕ) (mid_path : List ℝ) (fills : List Fill)
    (h : ∀ f ∈ fills, 0 < f.size) :
    ∀ f ∈ annotate_fills horizon mid_path fills, 0 < f.size := by
  unfold annotate_fills
  split_ifs with hc
  · intro f hf
    rcases List.mem_map.mp hf with ⟨g, hg, rfl⟩
    exact h g hg
  · exact h

/-- C2: starting from zero inventory, with a nonnegative max_inventory,
every entry of the recorded inventory series of any run stays within
[-max_inventory, max_inventory], and every recorded fill has size > 0 (a
candidate clipped to zero or below is dropped, never recorded). -/
theorem c2_inventory_bounded {σ : Type} (cfg : SimulationConfig) (rng : Rng)
    (events : List MarketEvent) (strat : Strategy σ) (s0 : σ)
    (hM : 0 ≤ cfg.max_inventory) :
    (∀ x ∈ resInvPath (Simulator.run ⟨cfg, rng⟩ events strat s0),
      |x| ≤ cfg.max_inventory) ∧
    (∀ f ∈ resFills (Simulator.run ⟨cfg, rng⟩ events strat s0), 0 < f.size) := by
  unfold Simulator.run run_core
  cases hf : events.foldlM (runStep cfg rng strat) (initState cfg, s0) with
  | error e =>
    simp only [hf, Except.map, resInvPath, resFills]
    exact ⟨by intro x hx; simp at hx, by intro f hfm; simp at hfm⟩
  | ok out =>
    obtain ⟨g1, g2, g3⟩ := run_core_inv cfg rng strat events (initState cfg, s0) out hf
      (by simpa [initState] using hM) (by simp [initState]) (by simp [initState])
    simp only [hf, Except.map, resInvPath, resFills, mkResult]
    refine ⟨g2, ?_⟩
    exact annotate_fills_sizes cfg.adverse_selection_horizon out.1.mid_path out.1.fills g3

/-- C2 witness: the invariant at the default configuration on a concrete
run. -/
theorem c2_witness :
    (∀ x ∈ resInvPath (Simulator.run ⟨{}, zeroRng⟩ [] exStrat ()),
      |x| ≤ ({} : SimulationConfig).max_inventory) ∧
    (∀ f ∈ resFills (Simulator.run ⟨{}, zeroRng⟩ [] exStrat ()), 0 < f.size) :=
  c2_inventory_bounded {} zeroRng [] exStrat () (show (0 : ℝ) ≤ 10 by norm_num)

/-! ## C7 -/

theorem scenario_step_depth (sc : SyntheticScenario) (rng : Rng) (st : ScenState)
    (h : 1 < sc.depth_levels) :
    ∃ bl al, ((scenario_step sc rng st).1).depth = EventDepth.levels bl al ∧
      bl.length = sc.depth_levels ∧ al.length = sc.depth_levels ∧
      bl = (List.range sc.depth_levels).map (fun i : ℕ =>
        (((scenario_step sc rng st).1).best_bid - (i : ℝ) * sc.tick_size,
         uniformDraw sc.depth_min sc.depth_max (rng (st.ctr + 2 + i)) * (1.5 : ℝ) ^ i)) ∧
      al = (List.range sc.depth_levels).map (fun i : ℕ =>
        (((scenario_step sc rng st).1).best_ask + (i : ℝ) * sc.tick_size,
         uniformDraw sc.depth_min sc.depth_max (rng (st.ctr + 2 + i)) * (1.5 : ℝ) ^ i)) := by
  have hn : ¬ sc.depth_levels ≤ 1 := by omega
  simp only [scenario_step, if_neg hn, build_depth]
  exact ⟨_, _, rfl, by simp, by simp, rfl, rfl⟩

theorem streamAux_mem (sc : SyntheticScenario) (rng : Rng) :
    ∀ (n : ℕ) (st : ScenState) (e : MarketEvent),
    e ∈ streamAux sc rng n st → ∃ st2, e = (scenario_step sc rng st2).1 := by
  intro n
  induction n with
  | zero =>
    intro st e he
    simp [streamAux] at he
  | succ k ih =>
    intro st e he
    simp only [streamAux] at he
    rcases List.mem_cons.mp he with hh | hh
    · exact ⟨st, hh⟩
    · exact ih (scenario_step sc rng st).2 e hh

/-- C7: with depth_levels = N > 1, every event the scenario emits (and
every single step output) carries exactly N (price, size) pairs per side;
level i is priced i ticks beyond the touch (best_bid - i*tick for bids,
best_ask + i*tick for asks) and sized by the step's i-th fresh uniform
base draw times 1.5^i. -/
theorem c7_depth_levels (sc : SyntheticScenario) (rng : Rng)
    (h : 1 < sc.depth_levels) :
    (∀ st : ScenState, ∃ bl al,
      ((scenario_step sc rng st).1).depth = EventDepth.levels bl al ∧
      bl.length = sc.depth_levels ∧ al.length = sc.depth_levels ∧
      bl = (List.range sc.depth_levels).map (fun i : ℕ =>
        (((scenario_step sc rng st).1).best_bid - (i : ℝ) * sc.tick_size,
         uniformDraw sc.depth_min sc.depth_max (rng (st.ctr + 2 + i)) * (1.5 : ℝ) ^ i)) ∧
      al = (List.range sc.depth_levels).map (fun i : ℕ =>
        (((scenario_step sc rng st).1).best_ask + (i : ℝ) * sc.tick_size,
         uniformDraw sc.depth_min sc.depth_max (rng (st.ctr + 2 + i)) * (1.5 : ℝ) ^ i))) ∧
    (∀ e ∈ sc.stream rng, ∃ c : ℕ, ∃ bl al,
      e.depth = EventDepth.levels bl al ∧
      bl.length = sc.depth_levels ∧ al.length = sc.depth_levels ∧
      bl = (List.range sc.depth_levels).map (fun i : ℕ =>
        (e.best_bid - (i : ℝ) * sc.tick_size,
         uniformDraw sc.depth_min sc.depth_max (rng (c + i)) * (1.5 : ℝ) ^ i)) ∧
      al = (List.range sc.depth_levels).map (fun i : ℕ =>
        (e.best_ask + (i : ℝ) * sc.tick_size,
         uniformDraw sc.depth_min sc.depth_max (rng (c + i)) * (1.5 : ℝ) ^ i))) := by
  refine ⟨fun st => scenario_step_depth sc rng st h, ?_⟩
  intro e he
  obtain ⟨st2, rfl⟩ := streamAux_mem sc rng sc.steps _ e he
  obtain ⟨bl, al, h1, h2, h3, h4, h5⟩ := scenario_step_depth sc rng st2 h
  exact ⟨st2.ctr + 2, bl, al, h1, h2, h3, h4, h5⟩

/-- C7 witness: the per-step depth shape at a concrete two-level scenario
and a concrete state. -/
theorem c7_witness :
    ∃ bl al,
      ((scenario_step exScenario2 zeroRng
        { stepIdx := 0, regime := "calm", mid := 100, ctr := 0 }).1).depth =
        EventDepth.levels bl al ∧
      bl.length = exScenario2.depth_levels ∧ al.length = exScenario2.depth_levels ∧
      bl = (List.range exScenario2.depth_levels).map (fun i : ℕ =>
        (((scenario_step exScenario2 zeroRng
            { stepIdx := 0, regime := "calm", mid := 100, ctr := 0 }).1).best_bid -
          (i : ℝ) * exScenario2.tick_size,
         uniformDraw exScenario2.depth_min exScenario2.depth_max
           (zeroRng (({ stepIdx := 0, regime := "calm", mid := 100, ctr := 0 } :
             ScenState).ctr + 2 + i)) * (1.5 : ℝ) ^ i)) ∧
      al = (List.range exScenario2.depth_levels).map (fun i : ℕ =>
        (((scenario_step exScenario2 zeroRng
            { stepIdx := 0, regime := "calm", mid := 100, ctr := 0 }).1).best_ask +
          (i : ℝ) * exScenario2.tick_size,
         uniformDraw exScenario2.depth_min exScenario2.depth_max
           (zeroRng (({ stepIdx := 0, regime := "calm", mid := 100, ctr := 0 } :
             ScenState).ctr + 2 + i)) * (1.5 : ℝ) ^ i)) :=
  (c7_depth_levels exScenario2 zeroRng (by norm_num [exScenario2])).1
    { stepIdx := 0, regime := "calm", mid := 100, ctr := 0 }

end

end MicroLab
